import Mathlib

/-!
Shallow embedding of the event dispatch and batching core of the
real-time-event-processor repository, together with proofs of the frozen
claims about it.

Sources embedded here:
 - src/common/types/event.types.ts              (EventType, DomainEvent, BatchJob)
 - src/common/factories/event-processor.factory.ts
   (ConcreteEventProcessorFactory: initializeRegistry, createProcessor,
    getSupportedEventTypes)
 - src/common/strategies/event-processor.strategy.ts
   (EventProcessorStrategy contract, BaseEventProcessorStrategy.retry)
 - src/common/observers/event-observer.pattern.ts (EventSubject.notify)
 - src/modules/batch/services/batch-processor.service.ts
   (BatchProcessorService: addEventToBatch, processTimedOutBatches,
    processBatch, processEventWithRetry, getBatchStatistics,
    forceBatchProcessing)
 - src/modules/event-processor/event-processor.service.ts
   (EventProcessorService.processEvent)

Modelling conventions: wall-clock instants are Nat (milliseconds); promises
returning void become `Except String Unit` (an exception carries its message
string); the per-attempt behaviour of a retried operation is a function from
the 1-indexed attempt number to its outcome; the JS `Map`s keyed by event
type become functions `EventType → Option _` (EventType is a closed enum).
Event payloads are not modelled: no embedded operation inspects them —
routing, batching and fan-out depend only on `type` and `id`.
-/

namespace EventProc

/-- Closed enumeration of event types, from src/common/types/event.types.ts. -/
inductive EventType where
  | ORDER_CREATED
  | ORDER_UPDATED
  | ORDER_CANCELLED
  | PAYMENT_CONFIRMED
  | PAYMENT_FAILED
  | STOCK_UPDATED
  | STOCK_RESERVED
  | NOTIFICATION_REQUESTED
deriving DecidableEq, Repr

/-- Object.values(EventType): every member of the enumeration, in declaration
order, as iterated by the factory and by the pending-batches sweep. -/
def allEventTypes : List EventType :=
  [EventType.ORDER_CREATED, EventType.ORDER_UPDATED, EventType.ORDER_CANCELLED,
   EventType.PAYMENT_CONFIRMED, EventType.PAYMENT_FAILED, EventType.STOCK_UPDATED,
   EventType.STOCK_RESERVED, EventType.NOTIFICATION_REQUESTED]

/-- String value of an EventType member (the enum is string-valued in the
source; used in error messages such as "No processor found for event type: X"). -/
def eventTypeName : EventType → String
  | EventType.ORDER_CREATED => "ORDER_CREATED"
  | EventType.ORDER_UPDATED => "ORDER_UPDATED"
  | EventType.ORDER_CANCELLED => "ORDER_CANCELLED"
  | EventType.PAYMENT_CONFIRMED => "PAYMENT_CONFIRMED"
  | EventType.PAYMENT_FAILED => "PAYMENT_FAILED"
  | EventType.STOCK_UPDATED => "STOCK_UPDATED"
  | EventType.STOCK_RESERVED => "STOCK_RESERVED"
  | EventType.NOTIFICATION_REQUESTED => "NOTIFICATION_REQUESTED"

/-- DomainEvent (src/common/types/event.types.ts). The payload variant is
omitted: none of the embedded operations reads it. -/
structure DomainEvent where
  id : String
  type : EventType
  timestamp : Nat
  version : Nat
deriving DecidableEq, Repr

/-- The EventProcessorStrategy contract
(src/common/strategies/event-processor.strategy.ts). `getBatchSize` and
`supportsBatchProcessing` are parameterless methods returning a constant per
concrete class, so they are fields; `process` returns a promise of void whose
rejection carries an error message. -/
structure EventProcessorStrategy where
  canHandle : EventType → Bool
  process : DomainEvent → Except String Unit
  getBatchSize : Nat
  supportsBatchProcessing : Bool

/-! ## Strategy registry (ConcreteEventProcessorFactory, src/unnamed/part_001)

`initializeRegistry` iterates the ordered processor list and, for each
EventType value the processor canHandle, writes `type -> processor` into the
registry map; a later write overwrites an earlier one (Map.set semantics). -/

/-- Registry built by ConcreteEventProcessorFactory.initializeRegistry:
fold over the ordered processor list, each processor overwriting the entry of
every type it canHandle. -/
def initializeRegistry (processors : List EventProcessorStrategy) :
    EventType → Option EventProcessorStrategy :=
  processors.foldl
    (fun reg p => fun t => if p.canHandle t then some p else reg t)
    (fun _ => none)

/-- ConcreteEventProcessorFactory.createProcessor: registry lookup, `none`
when the type has no entry. -/
def createProcessor (processors : List EventProcessorStrategy) (t : EventType) :
    Option EventProcessorStrategy :=
  initializeRegistry processors t

/-- ConcreteEventProcessorFactory.getSupportedEventTypes: the registry's key
set (membership-faithful; Map key insertion order is not modelled). -/
def getSupportedEventTypes (processors : List EventProcessorStrategy) : List EventType :=
  allEventTypes.filter (fun t => (initializeRegistry processors t).isSome)

/-! ## Retry primitives

`BaseEventProcessorStrategy.retry` (src/common/strategies/event-processor.strategy.ts
lines 25-48) and `BatchProcessorService.processEventWithRetry`
(batch-processor.service.ts lines 161-187) are embedded separately, each from
its own source loop. A `RetryTrace` records the outcome, how many times the
operation was invoked, and the list of sleep durations in order. -/

structure RetryTrace (α : Type) where
  result : Except String α
  invocations : Nat
  sleeps : List Nat
deriving Repr

/-- Loop body of BaseEventProcessorStrategy.retry, recursing on the number of
remaining attempts. `attempt` is the 1-indexed attempt counter; `lastError`
is the `lastError` variable (undefined before the first failure). On failure
with attempts remaining it sleeps `delay * 2^(attempt-1)`; after the final
failed attempt it re-raises the last error without sleeping. -/
def retryFrom (op : Nat → Except String α) (delay : Nat) :
    Nat → Option String → Nat → RetryTrace α
  | _, lastError, 0 =>
    { result := Except.error (lastError.getD "undefined"), invocations := 0, sleeps := [] }
  | attempt, _, r + 1 =>
    match op attempt with
    | Except.ok a => { result := Except.ok a, invocations := 1, sleeps := [] }
    | Except.error e =>
      let rest := retryFrom op delay (attempt + 1) (some e) r
      { result := rest.result
        invocations := rest.invocations + 1
        sleeps := if r = 0 then rest.sleeps else delay * 2 ^ (attempt - 1) :: rest.sleeps }

/-- BaseEventProcessorStrategy.retry(operation, maxAttempts, delay). -/
def retry (op : Nat → Except String α) (maxAttempts : Nat) (delay : Nat) : RetryTrace α :=
  retryFrom op delay 1 none maxAttempts

/-- Loop body of BatchProcessorService.processEventWithRetry; identical loop
shape but the backoff is hard-coded as `Math.pow(2, attempt - 1) * 1000`. -/
def processEventWithRetryFrom (processFn : Nat → Except String α) :
    Nat → Option String → Nat → RetryTrace α
  | _, lastError, 0 =>
    { result := Except.error (lastError.getD "undefined"), invocations := 0, sleeps := [] }
  | attempt, _, r + 1 =>
    match processFn attempt with
    | Except.ok a => { result := Except.ok a, invocations := 1, sleeps := [] }
    | Except.error e =>
      let rest := processEventWithRetryFrom processFn (attempt + 1) (some e) r
      { result := rest.result
        invocations := rest.invocations + 1
        sleeps := if r = 0 then rest.sleeps else 2 ^ (attempt - 1) * 1000 :: rest.sleeps }

/-- BatchProcessorService.processEventWithRetry(processFn, event, maxRetries);
the event is already applied into `processFn`'s behaviour. -/
def processEventWithRetry (processFn : Nat → Except String α) (maxRetries : Nat) :
    RetryTrace α :=
  processEventWithRetryFrom processFn 1 none maxRetries

/-! ## Batch service state
(BatchProcessorService, src/modules/batch/services/batch-processor.service.ts)

The two `Map`s of the service become a function over the closed EventType enum
(pendingBatches) and a list of jobs (activeBatches; `uuidv4()` becomes a
counter `nextId`, and the 60-second `setTimeout` eviction of finished jobs is
real-time asynchrony outside this sequential model, so finished jobs stay in
the list). Observable steps of one call are recorded as `Action`s so that the
dispatcher's ordering of queuing, flush completion and observer fan-out can be
stated. -/

structure PendingBatch where
  eventType : EventType
  events : List DomainEvent
  createdAt : Nat
  maxSize : Nat
deriving DecidableEq, Repr

inductive JobStatus where
  | PENDING
  | PROCESSING
  | COMPLETED
  | FAILED
deriving DecidableEq, Repr

/-- BatchJob (src/common/types/event.types.ts). The model stores the terminal
snapshot of the job record that `processBatch` leaves in activeBatches. -/
structure BatchJob where
  id : Nat
  type : EventType
  events : List DomainEvent
  batchSize : Nat
  status : JobStatus
  createdAt : Nat
  startedAt : Nat
  completedAt : Option Nat
  error : Option String
deriving DecidableEq, Repr

structure BatchState where
  pending : EventType → Option PendingBatch
  active : List BatchJob
  nextId : Nat

def initialBatchState : BatchState :=
  { pending := fun _ => none, active := [], nextId := 0 }

/-- Observable steps of one service call, for ordering claims:
`queued` = event appended to a pending batch, `flushed` = processBatch ran to
completion for these event ids, `processed` = immediate-path handler.process
resolved, `notified` = eventSubject.notify(event) was invoked. -/
inductive Action where
  | processed (id : String)
  | queued (id : String) (t : EventType)
  | flushed (t : EventType) (ids : List String)
  | notified (id : String)
deriving DecidableEq, Repr

/-- First rejection, in list order, among the settled task outcomes of a batch
whose events all settle on the same schedule (the per-batch timing refinement
for claim C2 is modelled separately below): the error `Promise.all` rejects
with, `none` when every task fulfils. -/
def firstErrorOf : List (Except String Unit) → Option String
  | [] => none
  | Except.ok _ :: rest => firstErrorOf rest
  | Except.error m :: _ => some m

/-- Absorbed outcome of the try-block of processBatch: the "No processor
found" error when the factory returns null, otherwise the rejection the
awaited Promise.all reports over the per-event retry tasks (`none` when
every task fulfils; the per-batch settlement timing of that await is modelled
separately for claim C2 — here tasks settle on a common schedule, so the
reported rejection is the first in event order). -/
def batchOutcome (ps : List EventProcessorStrategy) (t : EventType)
    (events : List DomainEvent) : Option String :=
  match createProcessor ps t with
  | none => some ("No processor found for event type: " ++ eventTypeName t)
  | some p =>
    firstErrorOf (events.map fun e =>
      (processEventWithRetry (fun _ => p.process e) 3).result)

/-- The job record that processBatch leaves in activeBatches, in its terminal
state: snapshot of the deleted pending batch, batchSize :=
batch.events.length, COMPLETED when the try-block succeeded, otherwise
FAILED carrying the absorbed error. -/
def batchJobOf (ps : List EventProcessorStrategy) (now : Nat) (t : EventType)
    (batch : PendingBatch) (id : Nat) : BatchJob :=
  { id := id
    type := t
    events := batch.events
    batchSize := batch.events.length
    status := match batchOutcome ps t batch.events with
      | none => JobStatus.COMPLETED
      | some _ => JobStatus.FAILED
    createdAt := batch.createdAt
    startedAt := now
    completedAt := some now
    error := batchOutcome ps t batch.events }

/-- BatchProcessorService.processBatch (lines 92-159): look up the pending
batch; a missing or empty batch is a no-op; otherwise delete it from the
pending map (read-then-delete, first step), build and run the job, and leave
it in activeBatches in its terminal state. -/
def processBatch (ps : List EventProcessorStrategy) (now : Nat) (t : EventType)
    (s : BatchState) : BatchState × List Action :=
  match s.pending t with
  | none => (s, [])
  | some batch =>
    if batch.events.length = 0 then (s, [])
    else
      ({ pending := fun u => if u = t then none else s.pending u
         active := batchJobOf ps now t batch s.nextId :: s.active
         nextId := s.nextId + 1 },
       [Action.flushed t (batch.events.map fun e => e.id)])

/-- BatchProcessorService.addEventToBatch (lines 36-67): resolve the
processor; if none or it does not support batching, return untouched; create
the pending batch on first event (createdAt := now, maxSize :=
processor.getBatchSize()); append the event; when the batch reaches its
maxSize, process it synchronously before returning. -/
def addEventToBatch (ps : List EventProcessorStrategy) (now : Nat)
    (e : DomainEvent) (s : BatchState) : BatchState × List Action :=
  match createProcessor ps e.type with
  | none => (s, [])
  | some p =>
    if p.supportsBatchProcessing = false then (s, [])
    else
      let batch : PendingBatch :=
        match s.pending e.type with
        | some b => b
        | none =>
          { eventType := e.type, events := [], createdAt := now, maxSize := p.getBatchSize }
      let batchAfter : PendingBatch := { batch with events := batch.events ++ [e] }
      let s1 : BatchState :=
        { s with pending := fun u => if u = e.type then some batchAfter else s.pending u }
      if batchAfter.maxSize ≤ batchAfter.events.length then
        let flushed := processBatch ps now e.type s1
        (flushed.1, Action.queued e.id e.type :: flushed.2)
      else
        (s1, [Action.queued e.id e.type])

/-- BatchProcessorService.processTimedOutBatches (lines 71-90): collect every
event type whose pending batch is at least `timeout` old and non-empty, then
process each collected type. -/
def processTimedOutBatches (ps : List EventProcessorStrategy) (now : Nat)
    (timeout : Nat) (s : BatchState) : BatchState × List Action :=
  let timedOut := allEventTypes.filter fun t =>
    match s.pending t with
    | none => false
    | some b => timeout ≤ now - b.createdAt && 0 < b.events.length
  timedOut.foldl
    (fun acc t =>
      let step := processBatch ps now t acc.1
      (step.1, acc.2 ++ step.2))
    (s, [])

/-- BatchProcessorService.forceBatchProcessing (lines 216-226): with a type,
process that type's batch; without, process every currently pending type. -/
def forceBatchProcessing (ps : List EventProcessorStrategy) (now : Nat)
    (t : Option EventType) (s : BatchState) : BatchState × List Action :=
  match t with
  | some t => processBatch ps now t s
  | none =>
    (allEventTypes.filter fun u => (s.pending u).isSome).foldl
      (fun acc u =>
        let step := processBatch ps now u acc.1
        (step.1, acc.2 ++ step.2))
      (s, [])

/-- Entries of the pendingBatches map, iterated over the closed enum. -/
def pendingEntries (s : BatchState) : List (EventType × PendingBatch) :=
  allEventTypes.filterMap fun t =>
    match s.pending t with
    | some b => some (t, b)
    | none => none

structure BatchStatistics where
  pendingBatches : Nat
  activeBatches : Nat
  totalPendingEvents : Nat
  batchesByType : List (EventType × Nat)
deriving DecidableEq, Repr

/-- BatchProcessorService.getBatchStatistics (lines 190-210): one pass over
the pendingBatches entries accumulating the per-type record and the running
total in lockstep. -/
def getBatchStatistics (s : BatchState) : BatchStatistics :=
  let acc :=
    (pendingEntries s).foldl
      (fun (acc : List (EventType × Nat) × Nat) tb =>
        (acc.1 ++ [(tb.1, tb.2.events.length)], acc.2 + tb.2.events.length))
      ([], 0)
  { pendingBatches := (pendingEntries s).length
    activeBatches := s.active.length
    totalPendingEvents := acc.2
    batchesByType := acc.1 }

/-! ## Observer fan-out (EventSubject, src/unnamed/part_001 lines 267-294) -/

structure Observer where
  name : String
  interestedEvents : List EventType
  update : DomainEvent → Except String Unit

/-- BaseEventObserver.isInterestedIn. -/
def isInterestedIn (o : Observer) (t : EventType) : Bool :=
  o.interestedEvents.contains t

/-- One mapped notification task of EventSubject.notify: awaits
observer.update(event), and any raised error is caught and logged at the
point of occurrence, never rethrown — the task itself always fulfils. -/
def notifyTask (o : Observer) (e : DomainEvent) : Except String Unit :=
  match o.update e with
  | Except.ok _ => Except.ok ()
  | Except.error _ => Except.ok ()

/-- Promise.allSettled: never rejects, collects every settlement. -/
def allSettled (tasks : List (Except String Unit)) :
    Except String (List (Except String Unit)) :=
  Except.ok tasks

/-- The update invocations that EventSubject.notify performs: one per
interested observer (snapshot order), with the raw outcome of that
observer's update before the catch. -/
def notifyInvocations (obs : List Observer) (e : DomainEvent) :
    List (String × Except String Unit) :=
  (obs.filter fun o => isInterestedIn o e.type).map fun o => (o.name, o.update e)

/-- EventSubject.notify: filter the observer snapshot to the interested ones,
return immediately when none, otherwise run every notification task and wait
for all settlements. -/
def notify (obs : List Observer) (e : DomainEvent) :
    Except String (List (Except String Unit)) :=
  let interested := obs.filter fun o => isInterestedIn o e.type
  if interested.length = 0 then Except.ok []
  else allSettled (interested.map fun o => notifyTask o e)

/-! ## Dispatcher
(EventProcessorService.processEvent, event-processor.service.ts lines 71-99)

Resolve the processor (throwing "No processor found for event type: X" when
the factory returns null); on the batch path await addEventToBatch, on the
immediate path await processor.process (a rejection propagates to the caller
after logging, skipping the notify step); then invoke observer fan-out for
the event. The returned trace records the order of those steps. -/

def processEvent (ps : List EventProcessorStrategy) (now : Nat)
    (e : DomainEvent) (s : BatchState) :
    Except String Unit × BatchState × List Action :=
  match createProcessor ps e.type with
  | none =>
    (Except.error ("No processor found for event type: " ++ eventTypeName e.type), s, [])
  | some p =>
    if p.supportsBatchProcessing then
      let queued := addEventToBatch ps now e s
      (Except.ok (), queued.1, queued.2 ++ [Action.notified e.id])
    else
      match p.process e with
      | Except.ok _ => (Except.ok (), s, [Action.processed e.id, Action.notified e.id])
      | Except.error msg => (Except.error msg, s, [])

/-! ## Settlement timing of a flushed batch
(BatchProcessorService.processBatch lines 126-158)

`processBatch` runs one task per event and awaits `Promise.all` over them.
To state when the job record is finalized relative to the individual tasks,
each task is abstracted by its settlement: the instant its retry loop ends
and its final outcome. ECMAScript `Promise.all` fulfils once every task has
fulfilled, but rejects as soon as the first task rejects, with that task's
reason; already-started sibling tasks keep running, uncancelled, their
settlements unobserved by the `await`. The `try/catch` around the `await`
then immediately finalizes the job record. -/

structure TaskSpec where
  settleAt : Nat
  outcome : Except String Unit
deriving Repr

def isRejected (t : TaskSpec) : Bool :=
  match t.outcome with
  | Except.ok _ => false
  | Except.error _ => true

def rejectionMsg (t : TaskSpec) : String :=
  match t.outcome with
  | Except.ok _ => ""
  | Except.error m => m

/-- Fold step selecting the earliest-settling rejection seen so far
(earliest list position wins a tie). -/
def frStep (acc : Option TaskSpec) (t : TaskSpec) : Option TaskSpec :=
  if isRejected t then
    match acc with
    | none => some t
    | some r => if t.settleAt < r.settleAt then some t else acc
  else acc

/-- The task whose rejection settles first (earliest settleAt; earliest list
position on a tie), i.e. the rejection `Promise.all` reports. -/
def firstRejection (ts : List TaskSpec) : Option TaskSpec :=
  ts.foldl frStep none

/-- Latest settlement instant among the tasks (0 for an empty batch). -/
def maxSettle (ts : List TaskSpec) : Nat :=
  ts.foldl (fun m t => max m t.settleAt) 0

/-- Settlement of `await Promise.all(processingPromises)`: the instant the
await resumes and what it resumes with. -/
def promiseAll (ts : List TaskSpec) : Nat × Except String Unit :=
  match firstRejection ts with
  | some r => (r.settleAt, Except.error (rejectionMsg r))
  | none => (maxSettle ts, Except.ok ())

/-- Terminal state of the batch job record as `processBatch` finalizes it
from the `Promise.all` settlement: status, recorded error, and the instant
`completedAt` is written. -/
structure SettledJob where
  status : JobStatus
  error : Option String
  finalizedAt : Nat
deriving DecidableEq, Repr

def processBatchSettle (ts : List TaskSpec) : SettledJob :=
  match promiseAll ts with
  | (time, Except.ok _) => { status := JobStatus.COMPLETED, error := none, finalizedAt := time }
  | (time, Except.error m) =>
    { status := JobStatus.FAILED, error := some m, finalizedAt := time }

/-! ## Formalized claim predicates -/

/-- Claim C1's batch-path property on an action trace, as a scan: a
`notified id` action counts as correct only if a flush whose ids contain
`id` occurs strictly earlier in the trace. -/
def notifiedOnlyAfterFlushGo (id : String) (seen : Bool) : List Action → Bool
  | [] => true
  | Action.flushed _ ids :: rest =>
    notifiedOnlyAfterFlushGo id (seen || ids.contains id) rest
  | Action.notified i :: rest =>
    if i = id then seen && notifiedOnlyAfterFlushGo id seen rest
    else notifiedOnlyAfterFlushGo id seen rest
  | _ :: rest => notifiedOnlyAfterFlushGo id seen rest

def notifiedOnlyAfterFlush (id : String) (acts : List Action) : Bool :=
  notifiedOnlyAfterFlushGo id false acts

/-- Counts the observer fan-out invocations in a trace. -/
def isNotifyAction : Action → Bool
  | Action.notified _ => true
  | _ => false

/-- Exponential-backoff sleep schedule: `j` sleeps starting at exponent `a`,
each `d * 2^exponent` with the exponent rising by one per failed attempt. -/
def expectedSleeps (d : Nat) : Nat → Nat → List Nat
  | _, 0 => []
  | a, j + 1 => d * 2 ^ a :: expectedSleeps d (a + 1) j

/-- The OrderProcessorStrategy of the repository as routing data
(src/modules/order/strategies/order-processor.strategy.ts): it handles the
three order event types, supports batching with batch size 25, and its
process (database work, out of core scope) is abstracted as succeeding. -/
def orderProcessorStrategy : EventProcessorStrategy :=
  { canHandle := fun t =>
      [EventType.ORDER_CREATED, EventType.ORDER_UPDATED, EventType.ORDER_CANCELLED].contains t
    process := fun _ => Except.ok ()
    getBatchSize := 25
    supportsBatchProcessing := true }

/-- A small batching handler used to instantiate the batch-accumulator
theorems: it claims NOTIFICATION_REQUESTED with batch size 2. -/
def pairBatchStrategy : EventProcessorStrategy :=
  { canHandle := fun t => t = EventType.NOTIFICATION_REQUESTED
    process := fun _ => Except.ok ()
    getBatchSize := 2
    supportsBatchProcessing := true }

/-- Sequential submission of a list of events to addEventToBatch, final
state only. -/
def addAll (ps : List EventProcessorStrategy) (now : Nat) :
    List DomainEvent → BatchState → BatchState
  | [], s => s
  | e :: evs, s => addAll ps now evs (addEventToBatch ps now e s).1

/-- One completed public operation of the batch service. -/
inductive BatchOp where
  | add (now : Nat) (e : DomainEvent)
  | sweep (now : Nat)
  | force (now : Nat) (t : Option EventType)
deriving Repr

def runOp (ps : List EventProcessorStrategy) (timeout : Nat) (s : BatchState) :
    BatchOp → BatchState
  | BatchOp.add now e => (addEventToBatch ps now e s).1
  | BatchOp.sweep now => (processTimedOutBatches ps now timeout s).1
  | BatchOp.force now t => (forceBatchProcessing ps now t s).1

def runOps (ps : List EventProcessorStrategy) (timeout : Nat)
    (s : BatchState) (ops : List BatchOp) : BatchState :=
  ops.foldl (runOp ps timeout) s

/-- Claim C9's invariant of the pending-batches map: every entry keyed by T
is a batch tagged T holding only events of type T, non-empty, and strictly
below its own maxSize (i.e. between 1 and maxSize - 1 events inclusive). -/
def BatchInv (s : BatchState) : Prop :=
  ∀ t b, s.pending t = some b →
    b.eventType = t ∧ (∀ e ∈ b.events, e.type = t)
    ∧ 1 ≤ b.events.length ∧ b.events.length ≤ b.maxSize - 1

theorem mem_allEventTypes (t : EventType) : t ∈ allEventTypes := by
  cases t <;> decide

theorem expectedSleeps_eq (d : Nat) :
    ∀ (j a : Nat), expectedSleeps d a j = (List.range j).map fun i => d * 2 ^ (a + i) := by
  intro j
  induction j with
  | zero => intro a; simp [expectedSleeps]
  | succ j ih =>
    intro a
    rw [List.range_succ_eq_map]
    simp only [expectedSleeps, List.map_cons, List.map_map, ih (a + 1)]
    refine congrArg₂ List.cons (by rw [Nat.add_zero]) ?_
    refine List.map_congr_left fun i _ => ?_
    have h : a + 1 + i = a + (i + 1) := by omega
    simp [Function.comp, h]

/-! ## Claim C3: the retry helper -/

theorem retryFrom_ok (op : Nat → Except String α) (d : Nat) :
    ∀ (r a : Nat) (l : Option String) (j : Nat) (v : α),
      j < r →
      (∀ i, i < j → ∃ m, op (a + 1 + i) = Except.error m) →
      op (a + 1 + j) = Except.ok v →
      retryFrom op d (a + 1) l r =
        { result := Except.ok v, invocations := j + 1, sleeps := expectedSleeps d a j } := by
  intro r
  induction r with
  | zero => intro a l j v hj; exact absurd hj (Nat.not_lt_zero j)
  | succ r ih =>
    intro a l j v hj herrs hok
    match j with
    | 0 =>
      simp only [retryFrom, hok]
      rfl
    | j' + 1 =>
      obtain ⟨m, hm⟩ := herrs 0 (Nat.succ_pos j')
      rw [Nat.add_zero] at hm
      have hj' : j' < r := Nat.lt_of_succ_lt_succ hj
      have herrs' : ∀ i, i < j' → ∃ m, op (a + 1 + 1 + i) = Except.error m := by
        intro i hi
        have h : a + 1 + 1 + i = a + 1 + (i + 1) := by omega
        rw [h]
        exact herrs (i + 1) (Nat.succ_lt_succ hi)
      have hok' : op (a + 1 + 1 + j') = Except.ok v := by
        have h : a + 1 + 1 + j' = a + 1 + (j' + 1) := by omega
        rw [h]; exact hok
      have hrest := ih (a + 1) (some m) j' v hj' herrs' hok'
      have hr : ¬(r = 0) := by omega
      simp only [retryFrom, hm, hrest, hr, if_false]
      have hpow : a + 1 - 1 = a := by omega
      simp [expectedSleeps, hpow]

theorem retryFrom_fail (op : Nat → Except String α) (d : Nat) :
    ∀ (r a : Nat) (l : Option String) (msg : String),
      1 ≤ r →
      (∀ i, i < r → ∃ m, op (a + 1 + i) = Except.error m) →
      op (a + r) = Except.error msg →
      retryFrom op d (a + 1) l r =
        { result := Except.error msg, invocations := r,
          sleeps := expectedSleeps d a (r - 1) } := by
  intro r
  induction r with
  | zero => intro a l msg hr; exact absurd hr (by omega)
  | succ r ih =>
    intro a l msg _ herrs hlast
    match r with
    | 0 =>
      have hm : op (a + 1) = Except.error msg := hlast
      simp only [retryFrom, hm]
      rfl
    | r' + 1 =>
      obtain ⟨m, hm⟩ := herrs 0 (Nat.succ_pos _)
      rw [Nat.add_zero] at hm
      have herrs' : ∀ i, i < r' + 1 → ∃ m, op (a + 1 + 1 + i) = Except.error m := by
        intro i hi
        have h : a + 1 + 1 + i = a + 1 + (i + 1) := by omega
        rw [h]
        exact herrs (i + 1) (Nat.succ_lt_succ hi)
      have hlast' : op (a + 1 + (r' + 1)) = Except.error msg := by
        have h : a + 1 + (r' + 1) = a + (r' + 1 + 1) := by omega
        rw [h]; exact hlast
      have hrest := ih (a + 1) (some m) msg (Nat.succ_pos r') herrs' hlast'
      have hr : ¬(r' + 1 = 0) := by omega
      rw [retryFrom, hm]
      simp only [hrest, if_neg hr]
      have hpow : a + 1 - 1 = a := by omega
      have hsz : r' + 1 - 1 = r' := by omega
      have hsz' : r' + 1 + 1 - 1 = r' + 1 := by omega
      simp [expectedSleeps, hpow, hsz, hsz']

/-- C3: retry(operation, M, baseDelay) with M ≥ 1 invokes the operation
exactly N times and returns its success value when the operation fails on
attempts 1..N-1 and succeeds at attempt N ≤ M; when every attempt up to M
fails it invokes the operation exactly M times and re-raises the error of the
last attempt; in both cases the sleeps between consecutive attempts are
exactly baseDelay * 2^(attempt-1) for the 1-indexed failed attempt, with no
sleep after the final failed attempt. -/
theorem retry_correct (op : Nat → Except String α) (M d : Nat) :
    (∀ N v, 1 ≤ N → N ≤ M →
      (∀ k, 1 ≤ k → k < N → ∃ m, op k = Except.error m) →
      op N = Except.ok v →
      retry op M d =
        { result := Except.ok v, invocations := N,
          sleeps := (List.range (N - 1)).map fun i => d * 2 ^ i })
  ∧ (∀ msg, 1 ≤ M →
      (∀ k, 1 ≤ k → k ≤ M → ∃ m, op k = Except.error m) →
      op M = Except.error msg →
      retry op M d =
        { result := Except.error msg, invocations := M,
          sleeps := (List.range (M - 1)).map fun i => d * 2 ^ i }) := by
  constructor
  · intro N v hN hNM herrs hok
    have herrs' : ∀ i, i < N - 1 → ∃ m, op (0 + 1 + i) = Except.error m := by
      intro i hi
      have h : 0 + 1 + i = i + 1 := by omega
      rw [h]
      exact herrs (i + 1) (by omega) (by omega)
    have hok' : op (0 + 1 + (N - 1)) = Except.ok v := by
      have h : 0 + 1 + (N - 1) = N := by omega
      rw [h]; exact hok
    have := retryFrom_ok op d M 0 none (N - 1) v (by omega) herrs' hok'
    have hN1 : N - 1 + 1 = N := by omega
    rw [retry, show (1 : Nat) = 0 + 1 from rfl, this, hN1, expectedSleeps_eq]
    refine congrArg _ (List.map_congr_left fun i _ => ?_)
    rw [Nat.zero_add]
  · intro msg hM herrs hlast
    have herrs' : ∀ i, i < M → ∃ m, op (0 + 1 + i) = Except.error m := by
      intro i hi
      have h : 0 + 1 + i = i + 1 := by omega
      rw [h]
      exact herrs (i + 1) (by omega) (by omega)
    have hlast' : op (0 + M) = Except.error msg := by rw [Nat.zero_add]; exact hlast
    have := retryFrom_fail op d M 0 none msg hM herrs' hlast'
    rw [retry, show (1 : Nat) = 0 + 1 from rfl, this, expectedSleeps_eq]
    refine congrArg _ (List.map_congr_left fun i _ => ?_)
    rw [Nat.zero_add]

/-- Concrete instantiations of retry_correct: an operation failing twice then
succeeding at attempt 3 of 5 yields the success value after exactly 3
invocations with sleeps 10, 20; an always-failing operation with 3 attempts
and base delay 7 is invoked 3 times, re-raises the last error, and sleeps
7, 14 only between attempts. -/
theorem retry_correct_witness :
    retry (fun k => if k < 3 then Except.error ("b" ++ toString k) else Except.ok 42) 5 10 =
      { result := Except.ok 42, invocations := 3, sleeps := [10, 20] }
  ∧ retry (fun k => (Except.error ("b" ++ toString k) : Except String Nat)) 3 7 =
      { result := Except.error "b3", invocations := 3, sleeps := [7, 14] } := by
  constructor
  · have h := (retry_correct
      (fun k => if k < 3 then Except.error ("b" ++ toString k) else Except.ok 42) 5 10).1
      3 42 (by omega) (by omega)
      (by intro k h1 h2; interval_cases k <;> exact ⟨_, rfl⟩) (by rfl)
    simpa using h
  · have h := (retry_correct
      (fun k => (Except.error ("b" ++ toString k) : Except String Nat)) 3 7).2
      "b3" (by omega)
      (by intro k h1 h2; interval_cases k <;> exact ⟨_, rfl⟩) (by rfl)
    simpa using h

/-! ## Claim C8: the batch executor's per-event retry equals the shared helper -/

theorem processEventWithRetryFrom_eq_retryFrom (op : Nat → Except String α) :
    ∀ (r a : Nat) (l : Option String),
      processEventWithRetryFrom op a l r = retryFrom op 1000 a l r := by
  intro r
  induction r with
  | zero => intro a l; rfl
  | succ r ih =>
    intro a l
    simp only [processEventWithRetryFrom, retryFrom]
    cases hop : op a with
    | ok v => rfl
    | error e => simp [ih (a + 1) (some e), Nat.mul_comm]

/-- C8: for every operation behaviour, BatchProcessorService.processEventWithRetry
with its default maxRetries = 3 produces exactly the same trace — same result,
same number of invocations, same sleep durations in the same order — as
BaseEventProcessorStrategy.retry with maxAttempts = 3 and baseDelay = 1000 ms. -/
theorem processEventWithRetry_eq_retry (op : Nat → Except String Unit) :
    processEventWithRetry op 3 = retry op 3 1000 :=
  processEventWithRetryFrom_eq_retryFrom op 3 1 none

/-- Concrete instantiation of the equivalence at an operation that fails
twice then succeeds. -/
theorem processEventWithRetry_eq_retry_witness :
    processEventWithRetry (fun k => if k < 3 then Except.error "t" else Except.ok ()) 3 =
      retry (fun k => if k < 3 then Except.error "t" else Except.ok ()) 3 1000 :=
  processEventWithRetry_eq_retry fun k => if k < 3 then Except.error "t" else Except.ok ()

/-! ## Claim C5: the strategy registry -/

theorem initializeRegistry_eq_getLast (ps : List EventProcessorStrategy) (t : EventType) :
    initializeRegistry ps t = (ps.filter fun p => p.canHandle t).getLast? := by
  induction ps using List.reverseRecOn with
  | nil => rfl
  | append_singleton l p ih =>
    unfold initializeRegistry at ih ⊢
    rw [List.foldl_append, List.foldl_cons, List.foldl_nil, List.filter_append]
    by_cases h : p.canHandle t
    · simp [h, List.getLast?_concat]
    · simp only [List.filter_cons, h, Bool.false_eq_true, if_false, List.filter_nil,
        List.append_nil]
      simpa [h] using ih

/-- C5: after registry construction from the ordered handler list,
createProcessor(t) is the last handler in the list whose canHandle(t) is
true; it is none exactly when no handler in the list can handle t; and
getSupportedEventTypes() contains exactly the event types claimed by at
least one handler. -/
theorem createProcessor_spec (ps : List EventProcessorStrategy) (t : EventType) :
    createProcessor ps t = (ps.filter fun p => p.canHandle t).getLast?
  ∧ (createProcessor ps t = none ↔ ∀ p ∈ ps, p.canHandle t = false)
  ∧ (t ∈ getSupportedEventTypes ps ↔ ∃ p ∈ ps, p.canHandle t = true) := by
  refine ⟨initializeRegistry_eq_getLast ps t, ?_, ?_⟩
  · rw [createProcessor, initializeRegistry_eq_getLast, List.getLast?_eq_none_iff,
      List.filter_eq_nil_iff]
    simp
  · rw [getSupportedEventTypes]
    rw [List.mem_filter]
    constructor
    · rintro ⟨-, hsome⟩
      rw [initializeRegistry_eq_getLast] at hsome
      rcases hfil : (ps.filter fun p => p.canHandle t) with _ | ⟨q, qs⟩
      · rw [hfil] at hsome; simp at hsome
      · have hq : q ∈ ps.filter fun p => p.canHandle t := by rw [hfil]; exact List.mem_cons_self q qs
        rw [List.mem_filter] at hq
        exact ⟨q, hq.1, hq.2⟩
    · rintro ⟨p, hp, hph⟩
      refine ⟨mem_allEventTypes t, ?_⟩
      rw [initializeRegistry_eq_getLast]
      have hne : (ps.filter fun p => p.canHandle t) ≠ [] := by
        intro hnil
        rw [List.filter_eq_nil_iff] at hnil
        exact hnil p hp (by simp [hph])
      simpa [List.getLast?_isSome] using hne

/-- Concrete instantiation of createProcessor_spec on a two-handler list that
both claim ORDER_CREATED: the later handler wins. -/
theorem createProcessor_spec_witness :
    createProcessor
        [{ canHandle := fun t => t = EventType.ORDER_CREATED,
           process := fun _ => Except.ok (), getBatchSize := 25,
           supportsBatchProcessing := true },
         { canHandle := fun t => t = EventType.ORDER_CREATED,
           process := fun _ => Except.error "later",
           getBatchSize := 10, supportsBatchProcessing := false }]
        EventType.ORDER_CREATED =
      ([{ canHandle := fun t => t = EventType.ORDER_CREATED,
          process := fun _ => Except.ok (), getBatchSize := 25,
          supportsBatchProcessing := true },
        { canHandle := fun t => t = EventType.ORDER_CREATED,
          process := fun _ => Except.error "later",
          getBatchSize := 10,
          supportsBatchProcessing := false }].filter fun p =>
            p.canHandle EventType.ORDER_CREATED).getLast? :=
  (createProcessor_spec _ EventType.ORDER_CREATED).1

/-! ## Claim C7: observer fan-out failure isolation -/

/-- C7: notify never raises due to an observer failure: the notify call's
own outcome is ok for every observer set and event; each notification task
catches its observer's exception at the point of occurrence (an update that
raises still yields a fulfilled task); and every observer interested in the
event's type has its update invoked, regardless of what the other observers'
updates do. -/
theorem notify_isolates (obs : List Observer) (e : DomainEvent) :
    (∃ rs, notify obs e = Except.ok rs)
  ∧ (∀ o msg, o.update e = Except.error msg → notifyTask o e = Except.ok ())
  ∧ (∀ o, o ∈ obs → isInterestedIn o e.type = true →
      (o.name, o.update e) ∈ notifyInvocations obs e) := by
  refine ⟨?_, ?_, ?_⟩
  · unfold notify allSettled
    by_cases h : (obs.filter fun o => isInterestedIn o e.type).length = 0
    · rw [if_pos h]
      exact ⟨[], rfl⟩
    · rw [if_neg h]
      exact ⟨_, rfl⟩
  · intro o msg h
    unfold notifyTask
    rw [h]
  · intro o ho hint
    unfold notifyInvocations
    exact List.mem_map_of_mem _ (List.mem_filter.mpr ⟨ho, hint⟩)

/-- Concrete instantiation of notify_isolates: with an always-raising audit
observer attached ahead of a succeeding metrics observer, notify still
returns ok, the raising observer's task is caught, and the sibling's update
is invoked. -/
theorem notify_isolates_witness :
    (∃ rs,
      notify
        [{ name := "audit", interestedEvents := [EventType.ORDER_CREATED],
           update := fun _ => Except.error "db down" },
         { name := "metrics", interestedEvents := [EventType.ORDER_CREATED],
           update := fun _ => Except.ok () }]
        { id := "w7", type := EventType.ORDER_CREATED, timestamp := 0, version := 1 } =
        Except.ok rs)
  ∧ notifyTask
      { name := "audit", interestedEvents := [EventType.ORDER_CREATED],
        update := fun _ => Except.error "db down" }
      { id := "w7", type := EventType.ORDER_CREATED, timestamp := 0, version := 1 } =
      Except.ok ()
  ∧ ("metrics", Except.ok ()) ∈
      notifyInvocations
        [{ name := "audit", interestedEvents := [EventType.ORDER_CREATED],
           update := fun _ => Except.error "db down" },
         { name := "metrics", interestedEvents := [EventType.ORDER_CREATED],
           update := fun _ => Except.ok () }]
        { id := "w7", type := EventType.ORDER_CREATED, timestamp := 0, version := 1 } := by
  refine ⟨(notify_isolates _ _).1, ?_, ?_⟩
  · exact (notify_isolates [] _).2.1 _ "db down" rfl
  · exact (notify_isolates _ _).2.2 _ (List.Mem.tail _ (List.Mem.head _)) rfl

/-! ## Claim C6: unmapped event type -/

/-- C6: when the registry has no handler for the event's type, the lookup
returns none (it does not raise), and processEvent fails with the error
message naming the event type, with zero observer fan-out invocations in its
trace. -/
theorem processEvent_noHandler (ps : List EventProcessorStrategy) (now : Nat)
    (e : DomainEvent) (s : BatchState)
    (h : createProcessor ps e.type = none) :
    processEvent ps now e s =
      (Except.error ("No processor found for event type: " ++ eventTypeName e.type), s, [])
  ∧ ((processEvent ps now e s).2.2.countP isNotifyAction) = 0 := by
  have h1 : processEvent ps now e s =
      (Except.error ("No processor found for event type: " ++ eventTypeName e.type), s, []) := by
    unfold processEvent
    rw [h]
  exact ⟨h1, by rw [h1]; rfl⟩

/-- Concrete instantiation of processEvent_noHandler: with no registered
handlers, a STOCK_UPDATED event fails with the message naming its type and
fires no notification. -/
theorem processEvent_noHandler_witness :
    processEvent [] 0
        { id := "w6", type := EventType.STOCK_UPDATED, timestamp := 0, version := 1 }
        initialBatchState =
      (Except.error "No processor found for event type: STOCK_UPDATED",
       initialBatchState, [])
  ∧ ((processEvent [] 0
        { id := "w6", type := EventType.STOCK_UPDATED, timestamp := 0, version := 1 }
        initialBatchState).2.2.countP isNotifyAction) = 0 :=
  processEvent_noHandler [] 0
    { id := "w6", type := EventType.STOCK_UPDATED, timestamp := 0, version := 1 }
    initialBatchState rfl

/-! ## Claim C1: when fan-out happens relative to processing -/

/-- Counterexample to C1: submitting a single ORDER_CREATED event routes it
to the batch path (handler resolved, supportsBatchProcessing = true) and
succeeds, yet its trace notifies the event with no earlier flush containing
it — fan-out happens right after queuing, before the batch containing the
event is ever flushed. -/
theorem c1_notify_before_flush_cex :
    (createProcessor [orderProcessorStrategy] EventType.ORDER_CREATED).map
        (fun p => p.supportsBatchProcessing) = some true
  ∧ (processEvent [orderProcessorStrategy] 0
        { id := "e1", type := EventType.ORDER_CREATED, timestamp := 0, version := 1 }
        initialBatchState).1 = Except.ok ()
  ∧ notifiedOnlyAfterFlush "e1"
      (processEvent [orderProcessorStrategy] 0
        { id := "e1", type := EventType.ORDER_CREATED, timestamp := 0, version := 1 }
        initialBatchState).2.2 = false :=
  ⟨rfl, rfl, rfl⟩

/-- C1 as amended: the dispatcher notifies right after the processing step of
its own call returns. On the batch path that step is addEventToBatch, so the
fan-out for the submitted event follows immediately after the queuing (and
after the synchronous size-triggered flush only when this event fills the
batch) — not after the flush of the batch containing the event in general.
On the immediate path, fan-out occurs right after process(event) resolves,
and is skipped when process rejects. -/
theorem processEvent_fanout_timing (ps : List EventProcessorStrategy) (now : Nat)
    (e : DomainEvent) (s : BatchState) (p : EventProcessorStrategy)
    (h : createProcessor ps e.type = some p) :
    (p.supportsBatchProcessing = true →
      processEvent ps now e s =
        (Except.ok (), (addEventToBatch ps now e s).1,
         (addEventToBatch ps now e s).2 ++ [Action.notified e.id]))
  ∧ (p.supportsBatchProcessing = false →
      (∀ u, p.process e = Except.ok u →
        processEvent ps now e s =
          (Except.ok (), s, [Action.processed e.id, Action.notified e.id]))
      ∧ (∀ msg, p.process e = Except.error msg →
        processEvent ps now e s = (Except.error msg, s, []))) := by
  constructor
  · intro hb
    unfold processEvent
    rw [h]
    simp [hb]
  · intro hb
    constructor
    · intro u hu
      unfold processEvent
      rw [h]
      simp [hb, hu]
    · intro msg hmsg
      unfold processEvent
      rw [h]
      simp [hb, hmsg]

/-- Concrete instantiation of processEvent_fanout_timing on the batch path:
the submitted order event's trace is exactly the addEventToBatch actions
followed by its own fan-out. -/
theorem processEvent_fanout_timing_witness :
    processEvent [orderProcessorStrategy] 0
        { id := "e1", type := EventType.ORDER_CREATED, timestamp := 0, version := 1 }
        initialBatchState =
      (Except.ok (),
       (addEventToBatch [orderProcessorStrategy] 0
          { id := "e1", type := EventType.ORDER_CREATED, timestamp := 0, version := 1 }
          initialBatchState).1,
       (addEventToBatch [orderProcessorStrategy] 0
          { id := "e1", type := EventType.ORDER_CREATED, timestamp := 0, version := 1 }
          initialBatchState).2 ++ [Action.notified "e1"]) :=
  (processEvent_fanout_timing [orderProcessorStrategy] 0
    { id := "e1", type := EventType.ORDER_CREATED, timestamp := 0, version := 1 }
    initialBatchState orderProcessorStrategy rfl).1 rfl

/-! ## Claim C10: consistency of getBatchStatistics -/

theorem stats_foldl_char (l : List (EventType × PendingBatch)) :
    ∀ (acc : List (EventType × Nat)) (n : Nat),
      (l.foldl
        (fun (acc : List (EventType × Nat) × Nat) tb =>
          (acc.1 ++ [(tb.1, tb.2.events.length)], acc.2 + tb.2.events.length))
        (acc, n)) =
      (acc ++ l.map fun tb => (tb.1, tb.2.events.length),
       n + (l.map fun tb => tb.2.events.length).sum) := by
  induction l with
  | nil => intro acc n; simp
  | cons tb l ih =>
    intro acc n
    rw [List.foldl_cons, ih]
    simp [Nat.add_assoc]

theorem mem_pendingEntries (s : BatchState) (t : EventType) (b : PendingBatch)
    (h : s.pending t = some b) : (t, b) ∈ pendingEntries s := by
  unfold pendingEntries
  rw [List.mem_filterMap]
  exact ⟨t, mem_allEventTypes t, by rw [h]⟩

/-- C10: in every state of the batch service, getBatchStatistics is
internally consistent: totalPendingEvents is the sum of the per-type counts
in batchesByType; batchesByType records exactly one entry per pending batch,
holding that batch's event count; pendingBatches is the number of entries of
the pending-batches map; and activeBatches is the number of entries of the
active-jobs map. -/
theorem getBatchStatistics_consistent (s : BatchState) :
    (getBatchStatistics s).totalPendingEvents
      = ((getBatchStatistics s).batchesByType.map fun kv => kv.2).sum
  ∧ (getBatchStatistics s).batchesByType
      = ((pendingEntries s).map fun tb => (tb.1, tb.2.events.length))
  ∧ (∀ t b, s.pending t = some b →
      (t, b.events.length) ∈ (getBatchStatistics s).batchesByType)
  ∧ (getBatchStatistics s).pendingBatches = (pendingEntries s).length
  ∧ (getBatchStatistics s).activeBatches = s.active.length := by
  have hchar := stats_foldl_char (pendingEntries s) [] 0
  have hby : (getBatchStatistics s).batchesByType
      = ((pendingEntries s).map fun tb => (tb.1, tb.2.events.length)) := by
    unfold getBatchStatistics
    rw [hchar]
    simp
  refine ⟨?_, hby, ?_, rfl, rfl⟩
  · have htot : (getBatchStatistics s).totalPendingEvents
        = ((pendingEntries s).map fun tb => tb.2.events.length).sum := by
      unfold getBatchStatistics
      rw [hchar]
      simp
    rw [htot, hby, List.map_map]
    rfl
  · intro t b h
    rw [hby]
    exact List.mem_map_of_mem _ (mem_pendingEntries s t b h)

/-- Concrete instantiation of getBatchStatistics_consistent at the state
holding one pending ORDER_CREATED batch with a single event. -/
theorem getBatchStatistics_consistent_witness :
    (getBatchStatistics
        (addEventToBatch [orderProcessorStrategy] 0
          { id := "e1", type := EventType.ORDER_CREATED, timestamp := 0, version := 1 }
          initialBatchState).1).totalPendingEvents
      = (((getBatchStatistics
            (addEventToBatch [orderProcessorStrategy] 0
              { id := "e1", type := EventType.ORDER_CREATED, timestamp := 0, version := 1 }
              initialBatchState).1).batchesByType).map fun kv => kv.2).sum
  ∧ (EventType.ORDER_CREATED, 1) ∈
      (getBatchStatistics
        (addEventToBatch [orderProcessorStrategy] 0
          { id := "e1", type := EventType.ORDER_CREATED, timestamp := 0, version := 1 }
          initialBatchState).1).batchesByType := by
  refine ⟨(getBatchStatistics_consistent _).1, ?_⟩
  exact (getBatchStatistics_consistent
    (addEventToBatch [orderProcessorStrategy] 0
      { id := "e1", type := EventType.ORDER_CREATED, timestamp := 0, version := 1 }
      initialBatchState).1).2.2.1 EventType.ORDER_CREATED
    { eventType := EventType.ORDER_CREATED,
      events := [{ id := "e1", type := EventType.ORDER_CREATED, timestamp := 0, version := 1 }],
      createdAt := 0, maxSize := 25 } rfl

/-! ## Claim C4: filling a batch triggers exactly one flush -/

theorem processBatch_run (ps : List EventProcessorStrategy) (now : Nat) (t : EventType)
    (s : BatchState) (b : PendingBatch) (hb : s.pending t = some b)
    (hne : ¬ b.events.length = 0) :
    processBatch ps now t s =
      ({ pending := fun u => if u = t then none else s.pending u
         active := batchJobOf ps now t b s.nextId :: s.active
         nextId := s.nextId + 1 },
       [Action.flushed t (b.events.map fun e => e.id)]) := by
  unfold processBatch
  rw [hb]
  dsimp only
  rw [if_neg hne]

theorem addEvent_existing_noflush (ps : List EventProcessorStrategy) (now : Nat)
    (e : DomainEvent) (s : BatchState) (b : PendingBatch) (p : EventProcessorStrategy)
    (hcp : createProcessor ps e.type = some p)
    (hsb : p.supportsBatchProcessing = true)
    (hb : s.pending e.type = some b)
    (hlt : ¬ b.maxSize ≤ b.events.length + 1) :
    addEventToBatch ps now e s =
      ({ s with pending := fun u =>
           if u = e.type then some { b with events := b.events ++ [e] } else s.pending u },
       [Action.queued e.id e.type]) := by
  unfold addEventToBatch
  rw [hcp]
  simp [hsb, hb, hlt]

theorem addEvent_existing_flush (ps : List EventProcessorStrategy) (now : Nat)
    (e : DomainEvent) (s : BatchState) (b : PendingBatch) (p : EventProcessorStrategy)
    (hcp : createProcessor ps e.type = some p)
    (hsb : p.supportsBatchProcessing = true)
    (hb : s.pending e.type = some b)
    (hge : b.maxSize ≤ b.events.length + 1) :
    addEventToBatch ps now e s =
      ((processBatch ps now e.type
          { s with pending := fun u =>
              if u = e.type then some { b with events := b.events ++ [e] }
              else s.pending u }).1,
       Action.queued e.id e.type ::
        (processBatch ps now e.type
          { s with pending := fun u =>
              if u = e.type then some { b with events := b.events ++ [e] }
              else s.pending u }).2) := by
  unfold addEventToBatch
  rw [hcp]
  simp [hsb, hb, hge]

theorem addEvent_create_noflush (ps : List EventProcessorStrategy) (now : Nat)
    (e : DomainEvent) (s : BatchState) (p : EventProcessorStrategy)
    (hcp : createProcessor ps e.type = some p)
    (hsb : p.supportsBatchProcessing = true)
    (hb : s.pending e.type = none)
    (hlt : ¬ p.getBatchSize ≤ 1) :
    addEventToBatch ps now e s =
      ({ s with pending := fun u =>
           if u = e.type then
             some { eventType := e.type, events := [e], createdAt := now,
                    maxSize := p.getBatchSize }
           else s.pending u },
       [Action.queued e.id e.type]) := by
  unfold addEventToBatch
  rw [hcp]
  simp [hsb, hb, hlt]

theorem addEvent_create_flush (ps : List EventProcessorStrategy) (now : Nat)
    (e : DomainEvent) (s : BatchState) (p : EventProcessorStrategy)
    (hcp : createProcessor ps e.type = some p)
    (hsb : p.supportsBatchProcessing = true)
    (hb : s.pending e.type = none)
    (hge : p.getBatchSize ≤ 1) :
    addEventToBatch ps now e s =
      ((processBatch ps now e.type
          { s with pending := fun u =>
              if u = e.type then
                some { eventType := e.type, events := [e], createdAt := now,
                       maxSize := p.getBatchSize }
              else s.pending u }).1,
       Action.queued e.id e.type ::
        (processBatch ps now e.type
          { s with pending := fun u =>
              if u = e.type then
                some { eventType := e.type, events := [e], createdAt := now,
                       maxSize := p.getBatchSize }
              else s.pending u }).2) := by
  unfold addEventToBatch
  rw [hcp]
  simp [hsb, hb, hge]

theorem addAll_fills (ps : List EventProcessorStrategy) (p : EventProcessorStrategy)
    (t : EventType) (hcp : createProcessor ps t = some p)
    (hsb : p.supportsBatchProcessing = true) :
    ∀ (evs : List DomainEvent) (now : Nat) (s : BatchState) (b : PendingBatch),
      s.pending t = some b →
      b.events.length + evs.length = b.maxSize →
      1 ≤ evs.length →
      (∀ e ∈ evs, e.type = t) →
      ∃ job : BatchJob,
        (addAll ps now evs s).pending t = none
        ∧ (addAll ps now evs s).active = job :: s.active
        ∧ job.type = t ∧ job.events = b.events ++ evs ∧ job.batchSize = b.maxSize
        ∧ (∀ u, u ≠ t → (addAll ps now evs s).pending u = s.pending u) := by
  intro evs
  induction evs with
  | nil =>
    intro now s b _ _ hpos
    exact absurd hpos (by simp)
  | cons e evs ih =>
    intro now s b hb hsum hpos hty
    have het : e.type = t := hty e (List.mem_cons_self _ _)
    subst het
    cases evs with
    | nil =>
      have hge : b.maxSize ≤ b.events.length + 1 := by
        simp at hsum
        omega
      have hflush := addEvent_existing_flush ps now e s b p hcp hsb hb hge
      have hlen1 : ¬ (b.events ++ [e]).length = 0 := by simp
      have hrun := processBatch_run ps now e.type
        { s with pending := fun u =>
            if u = e.type then some { b with events := b.events ++ [e] }
            else s.pending u }
        { b with events := b.events ++ [e] } (by simp) hlen1
      refine ⟨batchJobOf ps now e.type { b with events := b.events ++ [e] } s.nextId,
        ?_, ?_, rfl, rfl, ?_, ?_⟩
      · show ((addEventToBatch ps now e s).1).pending e.type = none
        rw [hflush, hrun]
        simp
      · show ((addEventToBatch ps now e s).1).active = _
        rw [hflush, hrun]
      · show (b.events ++ [e]).length = b.maxSize
        simp at hsum ⊢
        omega
      · intro u hu
        show ((addEventToBatch ps now e s).1).pending u = s.pending u
        rw [hflush, hrun]
        simp [hu]
    | cons e2 evs2 =>
      have hlt : ¬ b.maxSize ≤ b.events.length + 1 := by
        simp at hsum
        omega
      have hstep := addEvent_existing_noflush ps now e s b p hcp hsb hb hlt
      have hrec := ih now
        { s with pending := fun u =>
            if u = e.type then some { b with events := b.events ++ [e] }
            else s.pending u }
        { b with events := b.events ++ [e] }
        (by simp)
        (by simp at hsum ⊢; omega)
        (by simp)
        (fun e3 h3 => hty e3 (List.mem_cons_of_mem _ h3))
      obtain ⟨job, h1, h2, h3, h4, h5, h6⟩ := hrec
      refine ⟨job, ?_, ?_, h3, ?_, h5, ?_⟩
      · show (addAll ps now (e2 :: evs2) (addEventToBatch ps now e s).1).pending e.type = none
        rw [hstep]
        exact h1
      · show (addAll ps now (e2 :: evs2) (addEventToBatch ps now e s).1).active = job :: s.active
        rw [hstep]
        exact h2
      · rw [h4]
        simp
      · intro u hu
        show (addAll ps now (e2 :: evs2) (addEventToBatch ps now e s).1).pending u = s.pending u
        rw [hstep, h6 u hu]
        simp [hu]

/-- C4: for a handler that supports batching with batch size maxSize ≥ 1,
submitting maxSize events of its type to the accumulator, starting with no
pending batch for that type, performs exactly one flush: exactly one new
BatchJob is created, carrying those events with batchSize = maxSize, and no
pending events remain for that type (batches of other types untouched). -/
theorem addAll_fill_one_flush (ps : List EventProcessorStrategy)
    (p : EventProcessorStrategy) (t : EventType) (events : List DomainEvent)
    (now : Nat) (s : BatchState)
    (hcp : createProcessor ps t = some p)
    (hsb : p.supportsBatchProcessing = true)
    (hm : 1 ≤ p.getBatchSize)
    (hlen : events.length = p.getBatchSize)
    (hty : ∀ e ∈ events, e.type = t)
    (hnone : s.pending t = none) :
    ∃ job : BatchJob,
      (addAll ps now events s).pending t = none
      ∧ (addAll ps now events s).active = job :: s.active
      ∧ job.type = t ∧ job.events = events ∧ job.batchSize = p.getBatchSize
      ∧ (∀ u, u ≠ t → (addAll ps now events s).pending u = s.pending u) := by
  cases events with
  | nil =>
    rw [List.length_nil] at hlen
    omega
  | cons e rest =>
    have het : e.type = t := hty e (List.mem_cons_self _ _)
    subst het
    by_cases hone : p.getBatchSize ≤ 1
    · -- batch size 1: the first event flushes immediately and rest is empty
      have hrest : rest = [] := by
        rw [List.length_cons] at hlen
        exact List.eq_nil_of_length_eq_zero (by omega)
      subst hrest
      have hflush := addEvent_create_flush ps now e s p hcp hsb hnone hone
      have hrun := processBatch_run ps now e.type
        { s with pending := fun u =>
            if u = e.type then
              some { eventType := e.type, events := [e], createdAt := now,
                     maxSize := p.getBatchSize }
            else s.pending u }
        { eventType := e.type, events := [e], createdAt := now,
          maxSize := p.getBatchSize } (by simp) (by simp)
      refine ⟨batchJobOf ps now e.type
        { eventType := e.type, events := [e], createdAt := now,
          maxSize := p.getBatchSize } s.nextId, ?_, ?_, rfl, rfl, ?_, ?_⟩
      · show ((addEventToBatch ps now e s).1).pending e.type = none
        rw [hflush, hrun]
        simp
      · show ((addEventToBatch ps now e s).1).active = _
        rw [hflush, hrun]
      · show ([e] : List DomainEvent).length = p.getBatchSize
        rw [List.length_cons] at hlen
        simpa using hlen
      · intro u hu
        show ((addEventToBatch ps now e s).1).pending u = s.pending u
        rw [hflush, hrun]
        simp [hu]
    · -- batch size at least 2: the first event opens the batch, the rest fill it
      have hstep := addEvent_create_noflush ps now e s p hcp hsb hnone hone
      have hrec := addAll_fills ps p e.type hcp hsb rest now
        { s with pending := fun u =>
            if u = e.type then
              some { eventType := e.type, events := [e], createdAt := now,
                     maxSize := p.getBatchSize }
            else s.pending u }
        { eventType := e.type, events := [e], createdAt := now,
          maxSize := p.getBatchSize }
        (by simp)
        (by rw [List.length_cons] at hlen; simp; omega)
        (by rw [List.length_cons] at hlen; omega)
        (fun e3 h3 => hty e3 (List.mem_cons_of_mem _ h3))
      obtain ⟨job, h1, h2, h3, h4, h5, h6⟩ := hrec
      refine ⟨job, ?_, ?_, h3, ?_, h5, ?_⟩
      · show (addAll ps now rest (addEventToBatch ps now e s).1).pending e.type = none
        rw [hstep]
        exact h1
      · show (addAll ps now rest (addEventToBatch ps now e s).1).active = job :: s.active
        rw [hstep]
        exact h2
      · rw [h4]
        simp
      · intro u hu
        show (addAll ps now rest (addEventToBatch ps now e s).1).pending u = s.pending u
        rw [hstep, h6 u hu]
        simp [hu]

/-- Concrete instantiation of addAll_fill_one_flush: two NOTIFICATION_REQUESTED
events against a batch-size-2 handler produce one job holding both events and
leave no pending batch. -/
theorem addAll_fill_one_flush_witness :
    ∃ job : BatchJob,
      (addAll [pairBatchStrategy] 0
        [{ id := "n1", type := EventType.NOTIFICATION_REQUESTED, timestamp := 0, version := 1 },
         { id := "n2", type := EventType.NOTIFICATION_REQUESTED, timestamp := 0, version := 1 }]
        initialBatchState).pending EventType.NOTIFICATION_REQUESTED = none
      ∧ (addAll [pairBatchStrategy] 0
          [{ id := "n1", type := EventType.NOTIFICATION_REQUESTED, timestamp := 0, version := 1 },
           { id := "n2", type := EventType.NOTIFICATION_REQUESTED, timestamp := 0, version := 1 }]
          initialBatchState).active = job :: initialBatchState.active
      ∧ job.type = EventType.NOTIFICATION_REQUESTED
      ∧ job.events =
          [{ id := "n1", type := EventType.NOTIFICATION_REQUESTED, timestamp := 0, version := 1 },
           { id := "n2", type := EventType.NOTIFICATION_REQUESTED, timestamp := 0, version := 1 }]
      ∧ job.batchSize = pairBatchStrategy.getBatchSize
      ∧ (∀ u, u ≠ EventType.NOTIFICATION_REQUESTED →
          (addAll [pairBatchStrategy] 0
            [{ id := "n1", type := EventType.NOTIFICATION_REQUESTED, timestamp := 0, version := 1 },
             { id := "n2", type := EventType.NOTIFICATION_REQUESTED, timestamp := 0, version := 1 }]
            initialBatchState).pending u = initialBatchState.pending u) :=
  addAll_fill_one_flush [pairBatchStrategy] pairBatchStrategy
    EventType.NOTIFICATION_REQUESTED
    [{ id := "n1", type := EventType.NOTIFICATION_REQUESTED, timestamp := 0, version := 1 },
     { id := "n2", type := EventType.NOTIFICATION_REQUESTED, timestamp := 0, version := 1 }]
    0 initialBatchState rfl rfl (by decide) rfl (by decide) rfl

/-! ## Claim C9: invariant of the pending-batches map -/

theorem addEvent_noproc (ps : List EventProcessorStrategy) (now : Nat)
    (e : DomainEvent) (s : BatchState)
    (hcp : createProcessor ps e.type = none) :
    addEventToBatch ps now e s = (s, []) := by
  unfold addEventToBatch
  rw [hcp]

theorem addEvent_nosupport (ps : List EventProcessorStrategy) (now : Nat)
    (e : DomainEvent) (s : BatchState) (p : EventProcessorStrategy)
    (hcp : createProcessor ps e.type = some p)
    (hsb : p.supportsBatchProcessing = false) :
    addEventToBatch ps now e s = (s, []) := by
  unfold addEventToBatch
  rw [hcp]
  simp [hsb]

theorem processBatch_pending_shape (ps : List EventProcessorStrategy) (now : Nat)
    (t : EventType) (s : BatchState) (u : EventType) :
    (processBatch ps now t s).1.pending u = s.pending u
  ∨ (processBatch ps now t s).1.pending u = none := by
  unfold processBatch
  cases hp : s.pending t with
  | none => exact Or.inl rfl
  | some b =>
    dsimp only
    by_cases hz : b.events.length = 0
    · rw [if_pos hz]
      exact Or.inl rfl
    · rw [if_neg hz]
      by_cases hu : u = t
      · exact Or.inr (by simp [hu])
      · exact Or.inl (by simp [hu])

theorem processBatch_inv (ps : List EventProcessorStrategy) (now : Nat)
    (t : EventType) (s : BatchState) (h : BatchInv s) :
    BatchInv (processBatch ps now t s).1 := by
  intro u b hub
  rcases processBatch_pending_shape ps now t s u with hs | hs
  · rw [hs] at hub
    exact h u b hub
  · rw [hs] at hub
    exact absurd hub (by simp)

theorem foldl_processBatch_inv (ps : List EventProcessorStrategy) (now : Nat)
    (l : List EventType) :
    ∀ (acc : BatchState × List Action), BatchInv acc.1 →
      BatchInv (l.foldl
        (fun acc t =>
          let step := processBatch ps now t acc.1
          (step.1, acc.2 ++ step.2)) acc).1 := by
  induction l with
  | nil => intro acc h; exact h
  | cons t l ih =>
    intro acc h
    rw [List.foldl_cons]
    exact ih _ (processBatch_inv ps now t acc.1 h)

theorem addEvent_inv (ps : List EventProcessorStrategy) (now : Nat)
    (e : DomainEvent) (s : BatchState) (h : BatchInv s) :
    BatchInv (addEventToBatch ps now e s).1 := by
  rcases hcp : createProcessor ps e.type with _ | p
  · rw [addEvent_noproc ps now e s hcp]
    exact h
  · cases hsb : p.supportsBatchProcessing with
    | false =>
      rw [addEvent_nosupport ps now e s p hcp hsb]
      exact h
    | true =>
      rcases hb : s.pending e.type with _ | b
      · by_cases hone : p.getBatchSize ≤ 1
        · rw [addEvent_create_flush ps now e s p hcp hsb hb hone,
            processBatch_run ps now e.type _
              { eventType := e.type, events := [e], createdAt := now,
                maxSize := p.getBatchSize } (by simp) (by simp)]
          intro u b' hub'
          dsimp only at hub'
          by_cases hu : u = e.type
          · rw [if_pos hu] at hub'
            exact absurd hub' (by simp)
          · rw [if_neg hu] at hub'
            rw [if_neg hu] at hub'
            exact h u b' hub'
        · rw [addEvent_create_noflush ps now e s p hcp hsb hb hone]
          intro u b' hub'
          dsimp only at hub'
          by_cases hu : u = e.type
          · rw [if_pos hu] at hub'
            injection hub' with hb'
            subst hb'
            refine ⟨hu.symm, ?_, by simp, by simp; omega⟩
            intro e2 h2
            rw [List.mem_singleton] at h2
            subst h2
            exact hu.symm
          · rw [if_neg hu] at hub'
            exact h u b' hub'
      · by_cases hge : b.maxSize ≤ b.events.length + 1
        · rw [addEvent_existing_flush ps now e s b p hcp hsb hb hge,
            processBatch_run ps now e.type _
              { b with events := b.events ++ [e] } (by simp) (by simp)]
          intro u b' hub'
          dsimp only at hub'
          by_cases hu : u = e.type
          · rw [if_pos hu] at hub'
            exact absurd hub' (by simp)
          · rw [if_neg hu] at hub'
            rw [if_neg hu] at hub'
            exact h u b' hub'
        · rw [addEvent_existing_noflush ps now e s b p hcp hsb hb hge]
          intro u b' hub'
          dsimp only at hub'
          by_cases hu : u = e.type
          · rw [if_pos hu] at hub'
            injection hub' with hb'
            subst hb'
            obtain ⟨hety, htys, hlen1, _⟩ := h e.type b hb
            refine ⟨by rw [← hu] at hety; exact hety, ?_, by simp, by simp; omega⟩
            intro e2 h2
            rw [List.mem_append, List.mem_singleton] at h2
            rcases h2 with h2 | h2
            · rw [htys e2 h2]; exact hu.symm
            · subst h2; exact hu.symm
          · rw [if_neg hu] at hub'
            exact h u b' hub'

theorem runOp_inv (ps : List EventProcessorStrategy) (timeout : Nat)
    (s : BatchState) (op : BatchOp) (h : BatchInv s) :
    BatchInv (runOp ps timeout s op) := by
  cases op with
  | add now e => exact addEvent_inv ps now e s h
  | sweep now =>
    show BatchInv (processTimedOutBatches ps now timeout s).1
    unfold processTimedOutBatches
    exact foldl_processBatch_inv ps now _ (s, []) h
  | force now t =>
    show BatchInv (forceBatchProcessing ps now t s).1
    unfold forceBatchProcessing
    cases t with
    | some t => exact processBatch_inv ps now t s h
    | none => exact foldl_processBatch_inv ps now _ (s, []) h

theorem foldl_processBatch_pending_shape (ps : List EventProcessorStrategy) (now : Nat)
    (l : List EventType) :
    ∀ (acc : BatchState × List Action) (u : EventType),
      (l.foldl
        (fun acc t =>
          let step := processBatch ps now t acc.1
          (step.1, acc.2 ++ step.2)) acc).1.pending u = acc.1.pending u
    ∨ (l.foldl
        (fun acc t =>
          let step := processBatch ps now t acc.1
          (step.1, acc.2 ++ step.2)) acc).1.pending u = none := by
  induction l with
  | nil => intro acc u; exact Or.inl rfl
  | cons t l ih =>
    intro acc u
    rw [List.foldl_cons]
    rcases ih (let step := processBatch ps now t acc.1; (step.1, acc.2 ++ step.2)) u with hs | hs
    · rw [hs]
      exact processBatch_pending_shape ps now t acc.1 u
    · exact Or.inr hs

theorem addEvent_createdAt (ps : List EventProcessorStrategy) (now : Nat)
    (e : DomainEvent) (s : BatchState) (t : EventType) (b b' : PendingBatch)
    (hb : s.pending t = some b)
    (hb' : (addEventToBatch ps now e s).1.pending t = some b') :
    b'.createdAt = b.createdAt := by
  rcases hcp : createProcessor ps e.type with _ | p
  · rw [addEvent_noproc ps now e s hcp] at hb'
    rw [hb] at hb'
    injection hb' with h
    rw [h]
  · cases hsb : p.supportsBatchProcessing with
    | false =>
      rw [addEvent_nosupport ps now e s p hcp hsb] at hb'
      rw [hb] at hb'
      injection hb' with h
      rw [h]
    | true =>
      rcases hbe : s.pending e.type with _ | b0
      · have hne : ¬ t = e.type := by
          intro hteq
          rw [hteq, hbe] at hb
          exact absurd hb (by simp)
        by_cases hone : p.getBatchSize ≤ 1
        · rw [addEvent_create_flush ps now e s p hcp hsb hbe hone,
            processBatch_run ps now e.type _
              { eventType := e.type, events := [e], createdAt := now,
                maxSize := p.getBatchSize } (by simp) (by simp)] at hb'
          dsimp only at hb'
          rw [if_neg hne, if_neg hne, hb] at hb'
          injection hb' with h
          rw [h]
        · rw [addEvent_create_noflush ps now e s p hcp hsb hbe hone] at hb'
          dsimp only at hb'
          rw [if_neg hne, hb] at hb'
          injection hb' with h
          rw [h]
      · by_cases hge : b0.maxSize ≤ b0.events.length + 1
        · rw [addEvent_existing_flush ps now e s b0 p hcp hsb hbe hge,
            processBatch_run ps now e.type _
              { b0 with events := b0.events ++ [e] } (by simp) (by simp)] at hb'
          dsimp only at hb'
          by_cases hu : t = e.type
          · rw [if_pos hu] at hb'
            exact absurd hb' (by simp)
          · rw [if_neg hu, if_neg hu, hb] at hb'
            injection hb' with h
            rw [h]
        · rw [addEvent_existing_noflush ps now e s b0 p hcp hsb hbe hge] at hb'
          dsimp only at hb'
          by_cases hu : t = e.type
          · rw [if_pos hu] at hb'
            rw [hu, hbe] at hb
            injection hb with h0
            injection hb' with h1
            rw [← h1, ← h0]
          · rw [if_neg hu, hb] at hb'
            injection hb' with h
            rw [h]

theorem runOp_createdAt (ps : List EventProcessorStrategy) (timeout : Nat)
    (s : BatchState) (op : BatchOp) (t : EventType) (b b' : PendingBatch)
    (hb : s.pending t = some b)
    (hb' : (runOp ps timeout s op).pending t = some b') :
    b'.createdAt = b.createdAt := by
  cases op with
  | add now e => exact addEvent_createdAt ps now e s t b b' hb hb'
  | sweep now =>
    have hsh := foldl_processBatch_pending_shape ps now
      (allEventTypes.filter fun u =>
        match s.pending u with
        | none => false
        | some b => timeout ≤ now - b.createdAt && 0 < b.events.length)
      (s, []) t
    show b'.createdAt = b.createdAt
    have hb'' : (processTimedOutBatches ps now timeout s).1.pending t = some b' := hb'
    unfold processTimedOutBatches at hb''
    rcases hsh with hs | hs
    · rw [hs, hb] at hb''
      injection hb'' with h
      rw [h]
    · rw [hs] at hb''
      exact absurd hb'' (by simp)
  | force now ot =>
    cases ot with
    | some u =>
      have hb'' : (processBatch ps now u s).1.pending t = some b' := hb'
      rcases processBatch_pending_shape ps now u s t with hs | hs
      · rw [hs, hb] at hb''
        injection hb'' with h
        rw [h]
      · rw [hs] at hb''
        exact absurd hb'' (by simp)
    | none =>
      have hsh := foldl_processBatch_pending_shape ps now
        (allEventTypes.filter fun u => (s.pending u).isSome) (s, []) t
      have hb'' : (forceBatchProcessing ps now none s).1.pending t = some b' := hb'
      unfold forceBatchProcessing at hb''
      rcases hsh with hs | hs
      · rw [hs, hb] at hb''
        injection hb'' with h
        rw [h]
      · rw [hs] at hb''
        exact absurd hb'' (by simp)

theorem runOps_inv (ps : List EventProcessorStrategy) (timeout : Nat) :
    ∀ (ops : List BatchOp) (s : BatchState), BatchInv s →
      BatchInv (runOps ps timeout s ops) := by
  intro ops
  induction ops with
  | nil => intro s h; exact h
  | cons op ops ih =>
    intro s h
    rw [runOps, List.foldl_cons]
    exact ih (runOp ps timeout s op) (runOp_inv ps timeout s op h)

/-- C9: starting from the empty service state, after every sequence of
completed public operations (addEventToBatch, processTimedOutBatches,
forceBatchProcessing) — with every registered handler's getBatchSize at
least 1 — every entry of the pending-batches map keyed by T is a batch with
eventType = T containing only events of type T, holding between 1 and
maxSize - 1 events inclusive (a batch reaching maxSize is flushed and
removed before the operation returns); and no single operation ever alters
the createdAt of a batch it keeps in the map. -/
theorem batch_pending_invariant (ps : List EventProcessorStrategy) (timeout : Nat)
    (hps : ∀ p ∈ ps, 1 ≤ p.getBatchSize) (ops : List BatchOp) :
    BatchInv (runOps ps timeout initialBatchState ops)
  ∧ (∀ (s : BatchState) (op : BatchOp) (t : EventType) (b b' : PendingBatch),
      s.pending t = some b → (runOp ps timeout s op).pending t = some b' →
      b'.createdAt = b.createdAt) := by
  constructor
  · exact runOps_inv ps timeout ops initialBatchState
      (fun t b hb => absurd hb (by simp [initialBatchState]))
  · intro s op t b b' hb hb'
    exact runOp_createdAt ps timeout s op t b b' hb hb'

/-- Concrete instantiation of batch_pending_invariant: a submit followed by
a timeout sweep and an operational drain, against the batch-size-2 handler. -/
theorem batch_pending_invariant_witness :
    (∀ p ∈ [pairBatchStrategy], 1 ≤ p.getBatchSize)
  ∧ BatchInv (runOps [pairBatchStrategy] 30000 initialBatchState
      [BatchOp.add 0
        { id := "n1", type := EventType.NOTIFICATION_REQUESTED, timestamp := 0, version := 1 },
       BatchOp.sweep 40000,
       BatchOp.force 40000 none]) := by
  have h : ∀ p ∈ [pairBatchStrategy], 1 ≤ p.getBatchSize := by
    intro p hp
    rw [List.mem_singleton] at hp
    subst hp
    decide
  exact ⟨h,
    (batch_pending_invariant [pairBatchStrategy] 30000 h
      [BatchOp.add 0
        { id := "n1", type := EventType.NOTIFICATION_REQUESTED, timestamp := 0, version := 1 },
       BatchOp.sweep 40000,
       BatchOp.force 40000 none]).1⟩

/-! ## Claim C2: how the batch executor settles relative to its tasks -/

theorem frStep_char (acc : Option TaskSpec) (t : TaskSpec) :
    (isRejected t = false → frStep acc t = acc)
  ∧ (isRejected t = true → acc = none → frStep acc t = some t)
  ∧ (∀ r, isRejected t = true → acc = some r →
      frStep acc t = (if t.settleAt < r.settleAt then some t else some r)) := by
  refine ⟨?_, ?_, ?_⟩
  · intro h
    unfold frStep
    rw [h]
    rfl
  · intro h ha
    unfold frStep
    rw [h, ha]
    rfl
  · intro r h ha
    unfold frStep
    rw [h, ha]
    rfl

theorem firstRejection_go (ts : List TaskSpec) :
    ∀ (acc : Option TaskSpec),
      ((ts.foldl frStep acc = none) ↔ (acc = none ∧ ∀ t ∈ ts, isRejected t = false))
    ∧ (∀ r, ts.foldl frStep acc = some r →
        ((r ∈ ts ∧ isRejected r = true) ∨ acc = some r)
        ∧ (∀ t ∈ ts, isRejected t = true → r.settleAt ≤ t.settleAt)
        ∧ (∀ a, acc = some a → r.settleAt ≤ a.settleAt)) := by
  induction ts with
  | nil =>
    intro acc
    refine ⟨by simp, ?_⟩
    intro r hr
    rw [List.foldl_nil] at hr
    refine ⟨Or.inr hr, by simp, ?_⟩
    intro a ha
    rw [hr] at ha
    injection ha with h
    rw [h]
  | cons t ts ih =>
    intro acc
    have hstep := ih (frStep acc t)
    rw [List.foldl_cons]
    constructor
    · rw [hstep.1]
      constructor
      · rintro ⟨h1, h2⟩
        have hat : acc = none ∧ isRejected t = false := by
          unfold frStep at h1
          by_cases hrj : isRejected t
          · rw [if_pos hrj] at h1
            cases acc with
            | none => exact absurd h1 (by simp)
            | some a =>
              dsimp only at h1
              by_cases hlt : t.settleAt < a.settleAt
              · rw [if_pos hlt] at h1
                exact absurd h1 (by simp)
              · rw [if_neg hlt] at h1
                exact absurd h1 (by simp)
          · rw [if_neg hrj] at h1
            exact ⟨h1, by simpa using hrj⟩
        refine ⟨hat.1, ?_⟩
        intro u hu
        rcases List.mem_cons.mp hu with hu | hu
        · rw [hu]
          exact hat.2
        · exact h2 u hu
      · rintro ⟨h1, h2⟩
        have hrt : isRejected t = false := h2 t (List.mem_cons_self _ _)
        refine ⟨((frStep_char acc t).1 hrt).trans h1, ?_⟩
        intro u hu
        exact h2 u (List.mem_cons_of_mem _ hu)
    · intro r hr
      obtain ⟨hsrc, hmin, haccle⟩ := hstep.2 r hr
      refine ⟨?_, ?_, ?_⟩
      · rcases hsrc with ⟨hmem, hrj⟩ | hacc
        · exact Or.inl ⟨List.mem_cons_of_mem _ hmem, hrj⟩
        · unfold frStep at hacc
          by_cases hrj : isRejected t
          · rw [if_pos hrj] at hacc
            cases acc with
            | none =>
              injection hacc with h
              exact Or.inl ⟨by rw [← h]; exact List.mem_cons_self _ _, by rw [← h]; exact hrj⟩
            | some a =>
              dsimp only at hacc
              by_cases hlt : t.settleAt < a.settleAt
              · rw [if_pos hlt] at hacc
                injection hacc with h
                exact Or.inl ⟨by rw [← h]; exact List.mem_cons_self _ _, by rw [← h]; exact hrj⟩
              · rw [if_neg hlt] at hacc
                exact Or.inr hacc
          · rw [if_neg hrj] at hacc
            exact Or.inr hacc
      · intro u hu hur
        rcases List.mem_cons.mp hu with hu | hu
        · subst hu
          cases hacc : acc with
          | none =>
            have hft : frStep none u = some u := (frStep_char none u).2.1 hur rfl
            rw [hacc] at haccle
            exact haccle u hft
          | some a =>
            have hft := (frStep_char (some a) u).2.2 a hur rfl
            by_cases hlt : u.settleAt < a.settleAt
            · rw [if_pos hlt] at hft
              exact haccle u (by rw [hacc, hft])
            · rw [if_neg hlt] at hft
              have hra : r.settleAt ≤ a.settleAt := haccle a (by rw [hacc, hft])
              omega
        · exact hmin u hu hur
      · intro a ha
        subst ha
        by_cases hrj : isRejected t
        · have hft := (frStep_char (some a) t).2.2 a hrj rfl
          by_cases hlt : t.settleAt < a.settleAt
          · rw [if_pos hlt] at hft
            have := haccle t hft
            omega
          · rw [if_neg hlt] at hft
            exact haccle a hft
        · have hft := (frStep_char (some a) t).1 (by simpa using hrj)
          exact haccle a hft

/-- Counterexample to C2: a batch of two tasks where the first rejects at
instant 1 and the second fulfils at instant 5. Promise.all rejects at
instant 1, so processBatch marks the job FAILED and finalizes it then —
before the other task completes at instant 5 — contradicting that every
event's task runs to completion before the job is finalized. -/
theorem c2_finalize_before_all_settle_cex :
    (processBatchSettle
        [{ settleAt := 1, outcome := Except.error "boom" },
         { settleAt := 5, outcome := Except.ok () }]).status = JobStatus.FAILED
  ∧ (processBatchSettle
        [{ settleAt := 1, outcome := Except.error "boom" },
         { settleAt := 5, outcome := Except.ok () }]).error = some "boom"
  ∧ (processBatchSettle
        [{ settleAt := 1, outcome := Except.error "boom" },
         { settleAt := 5, outcome := Except.ok () }]).finalizedAt = 1
  ∧ maxSettle
        [{ settleAt := 1, outcome := Except.error "boom" },
         { settleAt := 5, outcome := Except.ok () }] = 5
  ∧ ¬ (maxSettle
        [{ settleAt := 1, outcome := Except.error "boom" },
         { settleAt := 5, outcome := Except.ok () }] ≤
       (processBatchSettle
        [{ settleAt := 1, outcome := Except.error "boom" },
         { settleAt := 5, outcome := Except.ok () }]).finalizedAt) :=
  ⟨rfl, rfl, rfl, rfl, by decide⟩

/-- C2 as amended: the executor starts every event's task and cancels none;
when every task fulfils, the job completes once the last task settles; when
some task rejects after exhausting its retries, the job is marked FAILED with
the message of the earliest-settling rejection and is finalized at that
rejection's settlement instant — which is at or before every other
rejection's settlement, and possibly before other tasks complete, whose
outcomes are then not collected. -/
theorem processBatchSettle_spec (ts : List TaskSpec) :
    (firstRejection ts = none →
      processBatchSettle ts =
        { status := JobStatus.COMPLETED, error := none, finalizedAt := maxSettle ts })
  ∧ (∀ r, firstRejection ts = some r →
      processBatchSettle ts =
        { status := JobStatus.FAILED, error := some (rejectionMsg r),
          finalizedAt := r.settleAt }
      ∧ r ∈ ts ∧ isRejected r = true
      ∧ (∀ t ∈ ts, isRejected t = true → r.settleAt ≤ t.settleAt))
  ∧ (firstRejection ts = none ↔ ∀ t ∈ ts, isRejected t = false) := by
  have hgo := firstRejection_go ts none
  refine ⟨?_, ?_, ?_⟩
  · intro h
    unfold processBatchSettle promiseAll
    rw [h]
  · intro r hr
    have hsrc := hgo.2 r hr
    rcases hsrc.1 with ⟨hmem, hrj⟩ | hacc
    · refine ⟨?_, hmem, hrj, hsrc.2.1⟩
      unfold processBatchSettle promiseAll
      rw [hr]
    · exact absurd hacc (by simp)
  · unfold firstRejection
    rw [hgo.1]
    simp

/-- Concrete instantiation of processBatchSettle_spec at a batch whose
rejections settle at instants 4 and 3: the job fails with the instant-3
rejection's message, finalized at 3. -/
theorem processBatchSettle_spec_witness :
    processBatchSettle
        [{ settleAt := 2, outcome := Except.ok () },
         { settleAt := 4, outcome := Except.error "x" },
         { settleAt := 3, outcome := Except.error "y" }] =
      { status := JobStatus.FAILED, error := some "y", finalizedAt := 3 }
  ∧ ({ settleAt := 3, outcome := Except.error "y" } : TaskSpec) ∈
      [{ settleAt := 2, outcome := Except.ok () },
       { settleAt := 4, outcome := Except.error "x" },
       { settleAt := 3, outcome := Except.error "y" }] := by
  have h := (processBatchSettle_spec
    [{ settleAt := 2, outcome := Except.ok () },
     { settleAt := 4, outcome := Except.error "x" },
     { settleAt := 3, outcome := Except.error "y" }]).2.1
    { settleAt := 3, outcome := Except.error "y" } rfl
  exact ⟨h.1, h.2.1⟩

end EventProc
